import Mathlib

/-
  Verification of the core WFC solver (wfc_solver.py) against its
  natural-language specification.

  The Python module is shallowly embedded: a wave (a numpy boolean tensor
  of shape N x W x H) becomes a list of N planes, each a list of W columns
  of H booleans; in-place numpy mutation becomes explicit value passing;
  the Contradiction exception (and the errors numpy itself can raise)
  become explicit result values.
-/

namespace WFC

abbrev Plane := List (List Bool)
abbrev Wave := List Plane
abbrev AdjMatrix := List (List Bool)
abbrev Adj := List ((Int × Int) × AdjMatrix)
abbrev Grid := List (List Nat)

/-- Number of true entries in one pattern column (a cell's remaining list). -/
def countCol (c : List Bool) : Nat := c.count true

/-- Number of true entries in one pattern plane. -/
def countPlane (pl : Plane) : Nat := (pl.map countCol).sum

/-- wave.sum() : total number of true entries of the wave. -/
def count3 (w : Wave) : Nat := (w.map countPlane).sum

/-- Entry lookup in a plane, false outside. -/
def get2 (pl : Plane) (x y : Nat) : Bool := (pl.getD x []).getD y false

/-- wave[p][x][y], false outside. -/
def get3 (w : Wave) (p x y : Nat) : Bool := get2 (w.getD p []) x y

/-- wave.shape[1] (grid width). -/
def waveW (w : Wave) : Nat := (w.headD []).length

/-- wave.shape[2] (grid height). -/
def waveH (w : Wave) : Nat := ((w.headD []).headD []).length

/-- Python/numpy wrap-around index into an axis of size n. -/
def pyWrap (i : Int) (n : Nat) : Nat := (i.emod n).toNat

/-- Boundary-aware lookup used by the shifted view of `propagate`:
periodic pads with wrap, non-periodic pads with constant True. -/
def shiftGet (pl : Plane) (per : Bool) (x y : Int) : Bool :=
  if per then
    get2 pl (pyWrap x pl.length) (pyWrap y (pl.headD []).length)
  else if 0 ≤ x ∧ x < (pl.length : Int) ∧ 0 ≤ y ∧ y < ((pl.headD []).length : Int) then
    get2 pl x.toNat y.toNat
  else
    true

/-- padded[1+dx : 1+W+dx, 1+dy : 1+H+dy] for one pattern plane. -/
def shiftPlane (pl : Plane) (d : Int × Int) (per : Bool) : Plane :=
  (List.range pl.length).map (fun x =>
    (List.range (pl.headD []).length).map (fun y =>
      shiftGet pl per ((x : Int) + d.1) ((y : Int) + d.2)))

def andCol (a b : List Bool) : List Bool := List.zipWith and a b

def andPlane (a b : Plane) : Plane := List.zipWith andCol a b

/-- Pointwise wave intersection, one step of `wave *= supports[d]`. -/
def andWave (a b : Wave) : Wave := List.zipWith andPlane a b

def orCol (a b : List Bool) : List Bool := List.zipWith or a b

def orPlane (a b : Plane) : Plane := List.zipWith orCol a b

/-- All-false plane of the same shape. -/
def falsePlane (pl : Plane) : Plane := pl.map (fun c => c.map (fun _ => false))

def maskPlane (b : Bool) (pl : Plane) : Plane := if b then pl else falsePlane pl

/-- supports[d] = einsum('pwh,pq->qwh', shifted, adj[d]) > 0. -/
def supportD (shifted : Wave) (m : AdjMatrix) : Wave :=
  (List.range (m.headD []).length).map (fun q =>
    ((m.map (fun row => row.getD q false)).zip shifted).foldl
      (fun acc pr => orPlane acc (maskPlane pr.1 pr.2)) (falsePlane (shifted.headD [])))

/-- One sweep of the propagation loop: compute every direction's support
from the sweep-entry wave, then intersect them all into the wave. -/
def sweep (w : Wave) (adj : Adj) (per : Bool) : Wave :=
  let sup := adj.map (fun dm => supportD (w.map (fun pl => shiftPlane pl dm.1 per)) dm.2)
  sup.foldl andWave w

/-- The while-True loop of `propagate`: sweep until the total count stops
changing.  The count strictly decreases on every continuing iteration, so
fuel `count3 w + 1` always suffices. -/
def propagateLoop : Nat → Wave → Adj → Bool → Nat → Wave
  | 0, w, _, _, _ => w
  | fuel + 1, w, adj, per, last =>
    let w2 := sweep w adj per
    if count3 w2 = last then w2 else propagateLoop fuel w2 adj per (count3 w2)

/-- propagate(wave, adj, periodic): returns the final in-place wave value
together with whether Contradiction was raised (the source raises exactly
when `wave.sum() == 0` after the loop). -/
def propagate (w : Wave) (adj : Adj) (per : Bool) : Wave × Bool :=
  let fin := propagateLoop (count3 w + 1) w adj per (count3 w)
  (fin, decide (count3 fin = 0))

/-- numpy.count_nonzero(wave, axis=0) as a W x H table. -/
def cellCounts (w : Wave) : List (List Nat) :=
  (List.range (waveW w)).map (fun x =>
    (List.range (waveH w)).map (fun y => (w.map (fun pl => get2 pl x y)).count true))

/-- Strict-minimum accumulator (keeps the earlier position on ties, as
numpy.argmin returns the first minimum in row-major order). -/
def betterMin (best : Option (Nat × Nat × Nat)) (x y : Nat) (v : Option Nat) :
    Option (Nat × Nat × Nat) :=
  match v, best with
  | Option.none, b => b
  | some n, Option.none => some (n, x, y)
  | some n, some (bn, bx, byy) => if n < bn then some (n, x, y) else some (bn, bx, byy)

def argminRow : List (Option Nat) → Nat → Nat → Option (Nat × Nat × Nat) →
    Option (Nat × Nat × Nat)
  | [], _, _, best => best
  | v :: rest, x, y, best => argminRow rest x (y + 1) (betterMin best x y v)

def argminRows : List (List (Option Nat)) → Nat → Option (Nat × Nat × Nat) →
    Option (Nat × Nat × Nat)
  | [], _, best => best
  | row :: rest, x, best => argminRows rest (x + 1) (argminRow row x 0 best)

/-- lexicalLocationHeuristic: unresolved cells weigh their count, resolved
cells weigh infinity (None); numpy.argmin of an all-infinite table is 0,
hence the (0, 0) fallback. -/
def lexicalLocationHeuristic (w : Wave) : Nat × Nat :=
  let wts := (cellCounts w).map (fun row => row.map (fun c => if 1 < c then some c else Option.none))
  match argminRows wts 0 Option.none with
  | Option.none => (0, 0)
  | some (_, x, y) => (x, y)

/-- lexicalPatternHeuristic: numpy.nonzero(weights)[0][0]; None models the
IndexError on an all-false weight vector. -/
def lexicalPatternHeuristic (weights : List Bool) : Option Nat :=
  weights.findIdx? (fun b => b)

/-- The chosen cell's pattern column wave[:, i, j]. -/
def cellCol (w : Wave) (i j : Nat) : List Bool := w.map (fun pl => get2 pl i j)

/-- observe(wave, locationHeuristic, patternHeuristic). -/
def observe (w : Wave) (locH : Wave → Nat × Nat) (patH : List Bool → Option Nat) :
    Option (Nat × Nat × Nat) :=
  let ij := locH w
  (patH (cellCol w ij.1 ij.2)).map (fun p => (p, ij.1, ij.2))

def setCell (pl : Plane) (i j : Nat) (b : Bool) : Plane :=
  pl.set i ((pl.getD i []).set j b)

/-- wave[:, i, j] = False; wave[pattern, i, j] = True. -/
def clearExcept (w : Wave) (p i j : Nat) : Wave :=
  (List.range w.length).map (fun p2 => setCell (w.getD p2 []) i j (decide (p2 = p)))

/-- wave[p, i, j] = False (the forbid step of backtracking). -/
def clearAt (w : Wave) (p i j : Nat) : Wave :=
  w.set p (setCell (w.getD p []) i j false)

/-- numpy.argmax(wave, 0): index of the first True pattern, 0 if none. -/
def argmax0 (w : Wave) : Grid :=
  (List.range (waveW w)).map (fun x =>
    (List.range (waveH w)).map (fun y => ((cellCol w x y).findIdx? (fun b => b)).getD 0))

/-- makeWave(n, w, h, ground): numpy.ones, then if a ground is given the
column y = h-1 is cleared and the ground plane's bottom row set.  None
models the IndexError numpy raises when the ground index is outside
[-n, n) (negative indices wrap) or when h = 0. -/
def makeWave (n w h : Nat) (ground : Option Int) : Option Wave :=
  let base : Wave := List.replicate n (List.replicate w (List.replicate h true))
  match ground with
  | Option.none => some base
  | some g =>
    if h = 0 then Option.none
    else if g < -(n : Int) ∨ (n : Int) ≤ g then Option.none
    else
      let gi := (if g < 0 then g + n else g).toNat
      let cleared := base.map (fun pl => pl.map (fun col => col.set (h - 1) false))
      some (cleared.set gi ((cleared.getD gi []).map (fun col => col.set (h - 1) true)))

def zeroMat (n : Nat) : AdjMatrix := List.replicate n (List.replicate n false)

def setMat (m : AdjMatrix) (i j : Nat) : AdjMatrix :=
  m.set i ((m.getD i []).set j true)

/-- The inner `for j in js: m[i, j] = 1` loop of makeAdj.  numpy raises
IndexError when the row index i is `>= n` or the column index j is outside
[-n, n); negative j wraps to n + j. -/
def assignRow (n i : Nat) : List Int → AdjMatrix → Option AdjMatrix
  | [], m => some m
  | j :: rest, m =>
    if n ≤ i then Option.none
    else if j < -(n : Int) ∨ (n : Int) ≤ j then Option.none
    else assignRow n i rest (setMat m i (if j < 0 then j + n else j).toNat)

/-- The `for i, js in enumerate(adjLists[d])` loop of makeAdj. -/
def buildRows (n : Nat) : Nat → List (List Int) → AdjMatrix → Option AdjMatrix
  | _, [], m => some m
  | i, js :: rest, m => (assignRow n i js m).bind (buildRows n (i + 1) rest)

def buildAdj (n : Nat) : List ((Int × Int) × List (List Int)) → Option Adj
  | [] => some []
  | (d, ls) :: rest =>
    (buildRows n 0 ls (zeroMat n)).bind (fun m =>
      (buildAdj n rest).map (fun r => (d, m) :: r))

/-- makeAdj(adjLists): num_patterns is the length of the first direction's
list (IndexError, i.e. None, on an empty mapping); each direction's list
is written into an n x n zero matrix. -/
def makeAdj (al : List ((Int × Int) × List (List Int))) : Option Adj :=
  match al with
  | [] => Option.none
  | first :: _ => buildAdj first.2.length al

/-- The onChoice argument slot of run.  `mis f` records that a
checkFeasible-typed callable was passed positionally into this slot (the
recursive call on line 112 of the source does exactly that); invoking it
with three arguments is a TypeError. -/
inductive ChoiceSlot where
  | none
  | hook
  | mis (f : Wave → Bool)

def misSlot : Option (Wave → Bool) → ChoiceSlot
  | Option.none => ChoiceSlot.none
  | some f => ChoiceSlot.mis f

inductive RunErr where
  | contradiction
  | typeErr
  | indexErr
  | fuelOut
deriving DecidableEq

inductive RunRes where
  | ok (g : Grid)
  | err (e : RunErr)
deriving DecidableEq

inductive Event where
  | choice (p i j : Nat)
  | backtrack
deriving DecidableEq

/-- The observable outcome of run: its return or raise, the hook events in
order, the clear-except commits in order, and (when the frame still
aliases the caller's array) the final contents of the caller's array. -/
structure RunOut where
  res : RunRes
  events : List Event
  commits : List (Nat × Nat × Nat)
  caller : Option Wave
deriving DecidableEq

def mkCaller (al : Bool) (w : Wave) : Option Wave := if al then some w else Option.none

/-- The `except Contradiction` block of run: with backtracking the local
name is rebound to the pre-propagation snapshot (so the caller's array is
frozen at `frozen`), the offending pattern is forbidden, and the recursive
call on line 112 forwards checkFeasible positionally into the onChoice
slot and nothing into checkFeasible. -/
def btStep (recur : Wave → ChoiceSlot → Bool → RunOut) (original : Wave) (bt obt : Bool)
    (cf : Option (Wave → Bool)) (al : Bool) (p i j : Nat) (evs : List Event)
    (cms : List (Nat × Nat × Nat)) (frozen : Wave) : RunOut :=
  if bt then
    let child := recur (clearAt original p i j) (misSlot cf) false
    ⟨child.res, (evs ++ if obt then [Event.backtrack] else []) ++ child.events,
      cms ++ child.commits, mkCaller al frozen⟩
  else
    ⟨RunRes.err RunErr.contradiction, evs, cms, mkCaller al frozen⟩

/-- run(wave, adj, locationHeuristic, patternHeuristic, periodic,
backtracking, onBacktrack, onChoice, checkFeasible), with explicit
recursion fuel and an `al` flag recording whether the executing array is
still the caller's array.  The recursive call on line 103 of the source
passes only seven positional arguments, so the child's onChoice and
checkFeasible are None; the backtracking call on line 112 passes
checkFeasible into the onChoice slot (see `btStep`). -/
def run : Nat → Wave → Adj → (Wave → Nat × Nat) → (List Bool → Option Nat) → Bool → Bool →
    Bool → ChoiceSlot → Option (Wave → Bool) → Bool → RunOut
  | 0, w, _, _, _, _, _, _, _, _, al => ⟨RunRes.err RunErr.fuelOut, [], [], mkCaller al w⟩
  | fuel + 1, w, adj, locH, patH, per, bt, obt, oc, cf, al =>
    if (match cf with | some f => f w | Option.none => true) = false then
      ⟨RunRes.err RunErr.contradiction, [], [], mkCaller al w⟩
    else
      let pr1 := propagate w adj per
      if pr1.2 then ⟨RunRes.err RunErr.contradiction, [], [], mkCaller al pr1.1⟩
      else
        match observe pr1.1 locH patH with
        | Option.none => ⟨RunRes.err RunErr.indexErr, [], [], mkCaller al pr1.1⟩
        | some (p, i, j) =>
          match oc with
          | ChoiceSlot.mis _ => ⟨RunRes.err RunErr.typeErr, [], [], mkCaller al pr1.1⟩
          | _ =>
            let ev0 : List Event :=
              match oc with | ChoiceSlot.hook => [Event.choice p i j] | _ => []
            let pr2 := propagate (clearExcept pr1.1 p i j) adj per
            if pr2.2 then
              btStep (fun w2 oc2 al2 => run fuel w2 adj locH patH per bt obt oc2 Option.none al2)
                w bt obt cf al p i j ev0 [(p, i, j)] pr2.1
            else if waveW pr2.1 * waveH pr2.1 < count3 pr2.1 then
              let child := run fuel pr2.1 adj locH patH per bt obt ChoiceSlot.none Option.none al
              match child.res with
              | RunRes.err RunErr.contradiction =>
                btStep (fun w2 oc2 al2 => run fuel w2 adj locH patH per bt obt oc2 Option.none al2)
                  w bt obt cf al p i j (ev0 ++ child.events) ((p, i, j) :: child.commits)
                  (child.caller.getD pr2.1)
              | _ => ⟨child.res, ev0 ++ child.events, (p, i, j) :: child.commits, child.caller⟩
            else ⟨RunRes.ok (argmax0 pr2.1), ev0, [(p, i, j)], mkCaller al pr2.1⟩

def evChoice : Event → Option (Nat × Nat × Nat)
  | Event.choice p i j => some (p, i, j)
  | Event.backtrack => Option.none

/-- The (p, i, j) arguments of the onChoice invocations, in order. -/
def choiceLog (o : RunOut) : List (Nat × Nat × Nat) :=
  o.events.filterMap evChoice

/-! Concrete inputs taken from the source's own tests: three patterns in
which 0 and 1 alternate as a checkerboard and 2 only neighbors itself, in
all four cardinal directions, on a 3 x 4 grid. -/

def cbLists : List ((Int × Int) × List (List Int)) :=
  [((1, 0), [[1], [0], [2]]), ((-1, 0), [[1], [0], [2]]),
   ((0, 1), [[1], [0], [2]]), ((0, -1), [[1], [0], [2]])]

def cbAdj : Adj := (makeAdj cbLists).getD []

def w0 : Wave := (makeWave 3 3 4 Option.none).getD []

/-- Every cell of a wave has at least one remaining pattern... its negation
at one cell: the cell (x, y) has zero remaining patterns. -/
def cellEmpty (w : Wave) (x y : Nat) : Prop := (cellCol w x y).count true = 0

instance (w : Wave) (x y : Nat) : Decidable (cellEmpty w x y) := by
  unfold cellEmpty; infer_instance

/-! ## Claims C2 and C3: concrete runs of the search driver -/

/-- Claim C2: with the 3-pattern checkerboard-or-solid adjacency on an
all-true 3 x 4 wave, the lexical heuristics, periodic = false and no
backtracking, run returns exactly the grid
[[0,1,0,1],[1,0,1,0],[0,1,0,1]]. -/
theorem run_nonperiodic_lexical_grid :
    (run 16 w0 cbAdj lexicalLocationHeuristic lexicalPatternHeuristic false false false
      ChoiceSlot.none Option.none true).res =
    RunRes.ok [[0, 1, 0, 1], [1, 0, 1, 0], [0, 1, 0, 1]] := by
  decide

/-- Claim C3: same adjacency, periodic = true, backtracking = true, with
onChoice and onBacktrack hooks attached: run returns the all-2 grid, and
the hook events are exactly one onChoice call with (0, 0, 0) followed by
one onBacktrack call. -/
theorem run_periodic_backtracking_grid_events :
    (run 16 w0 cbAdj lexicalLocationHeuristic lexicalPatternHeuristic true true true
      ChoiceSlot.hook Option.none true).res =
      RunRes.ok [[2, 2, 2, 2], [2, 2, 2, 2], [2, 2, 2, 2]] ∧
    (run 16 w0 cbAdj lexicalLocationHeuristic lexicalPatternHeuristic true true true
      ChoiceSlot.hook Option.none true).events =
      [Event.choice 0 0 0, Event.backtrack] := by
  constructor
  · decide
  · decide

/-! ## Claim C1: when does propagate raise Contradiction? -/

/-- Claim C1, counterexample: on the wave with one pattern and two cells in
which cell (0,0) is already empty and cell (1,0) is not, with an empty
direction set, propagate reaches its fixpoint immediately and does not
raise, even though cell (0,0) has zero remaining patterns.  The source
raises only when `wave.sum() == 0`, i.e. when every cell is empty. -/
theorem propagate_single_empty_cell_no_raise :
    (propagate [[[false], [true]]] [] false).2 = false ∧
    cellEmpty (propagate [[[false], [true]]] [] false).1 0 0 := by
  constructor
  · decide
  · decide

lemma count_true_eq_zero_iff (c : List Bool) : c.count true = 0 ↔ ∀ b ∈ c, b = false := by
  rw [List.count_eq_zero]
  constructor
  · intro h b hb
    cases b with
    | false => rfl
    | true => exact absurd hb h
  · intro h ht
    simpa using h true ht

lemma nat_sum_eq_zero_iff (l : List Nat) : l.sum = 0 ↔ ∀ x ∈ l, x = 0 := by
  induction l with
  | nil => simp
  | cons a t ih => simp [List.sum_cons, Nat.add_eq_zero, ih]

lemma count3_eq_zero_iff (w : Wave) :
    count3 w = 0 ↔ ∀ pl ∈ w, ∀ col ∈ pl, ∀ b ∈ col, b = false := by
  unfold count3 countPlane countCol
  rw [nat_sum_eq_zero_iff]
  constructor
  · intro h pl hpl col hcol b hb
    have h1 := h _ (List.mem_map_of_mem _ hpl)
    rw [nat_sum_eq_zero_iff] at h1
    have h2 := h1 _ (List.mem_map_of_mem _ hcol)
    exact (count_true_eq_zero_iff col).1 h2 b hb
  · intro h x hx
    obtain ⟨pl, hpl, rfl⟩ := List.mem_map.1 hx
    rw [nat_sum_eq_zero_iff]
    intro y hy
    obtain ⟨col, hcol, rfl⟩ := List.mem_map.1 hy
    exact (count_true_eq_zero_iff col).2 (h pl hpl col hcol)

lemma get2_true_exists (pl : Plane) (x y : Nat) (h : get2 pl x y = true) :
    ∃ col ∈ pl, (true : Bool) ∈ col := by
  unfold get2 at h
  by_cases hx : x < pl.length
  · refine ⟨pl.getD x [], ?_, ?_⟩
    · rw [List.getD_eq_getElem pl [] hx]
      exact List.getElem_mem hx
    · by_cases hy : y < (pl.getD x []).length
      · rw [List.getD_eq_getElem _ false hy] at h
        rw [← h]
        exact List.getElem_mem hy
      · rw [List.getD_eq_default _ false (Nat.le_of_not_lt hy)] at h
        exact absurd h (by simp)
  · rw [List.getD_eq_default pl [] (Nat.le_of_not_lt hx)] at h
    simp [get2] at h

lemma cells_empty_iff (w : Wave) :
    (∀ x y, cellEmpty w x y) ↔ ∀ pl ∈ w, ∀ col ∈ pl, ∀ b ∈ col, b = false := by
  constructor
  · intro h pl hpl col hcol b hb
    cases b with
    | false => rfl
    | true =>
      obtain ⟨x, hx, rfl⟩ := List.mem_iff_getElem.1 hcol
      obtain ⟨p, hp, rfl⟩ := List.mem_iff_getElem.1 hpl
      obtain ⟨y, hy, hcy⟩ := List.mem_iff_getElem.1 hb
      have hc := h x y
      unfold cellEmpty cellCol at hc
      rw [count_true_eq_zero_iff] at hc
      have hmem : get2 w[p] x y = (true : Bool) := by
        unfold get2
        rw [List.getD_eq_getElem _ [] hx, List.getD_eq_getElem _ false hy, hcy]
      have := hc (get2 w[p] x y) (List.mem_map_of_mem _ (List.getElem_mem hp))
      rw [hmem] at this
      exact this
  · intro h x y
    unfold cellEmpty cellCol
    rw [count_true_eq_zero_iff]
    intro b hb
    obtain ⟨pl, hpl, rfl⟩ := List.mem_map.1 hb
    cases hg : get2 pl x y with
    | false => rfl
    | true =>
      obtain ⟨col, hcol, hmem⟩ := get2_true_exists pl x y hg
      exact absurd (h pl hpl col hcol true hmem) (by simp)

/-- Claim C1, amended: propagate signals Contradiction if and only if,
after the tightening loop terminates, the wave's total count is zero,
i.e. every cell has zero remaining patterns — not when merely some single
cell is empty while others keep possibilities. -/
theorem propagate_raises_iff_all_empty (w : Wave) (adj : Adj) (per : Bool) :
    (propagate w adj per).2 = true ↔ ∀ x y, cellEmpty (propagate w adj per).1 x y := by
  have h2 : (propagate w adj per).2 = decide (count3 (propagate w adj per).1 = 0) := rfl
  rw [h2, decide_eq_true_iff, count3_eq_zero_iff, cells_empty_iff]

/-! ## Claim C7: propagate is monotone -/

lemma getD_andCol (a b : List Bool) (i : Nat) :
    (andCol a b).getD i false = ((a.getD i false) && (b.getD i false)) := by
  induction a generalizing b i with
  | nil => simp [andCol]
  | cons ha ta ih =>
    cases b with
    | nil => simp [andCol]
    | cons hb tb =>
      cases i with
      | zero => simp [andCol]
      | succ n => simpa [andCol] using ih tb n

lemma get2_andPlane (a b : Plane) (x y : Nat) :
    get2 (andPlane a b) x y = ((get2 a x y) && (get2 b x y)) := by
  induction a generalizing b x with
  | nil => simp [andPlane, get2]
  | cons ha ta ih =>
    cases b with
    | nil => simp [andPlane, get2]
    | cons hb tb =>
      cases x with
      | zero => simpa [andPlane, get2] using getD_andCol ha hb y
      | succ n => simpa [andPlane, get2] using ih tb n

lemma get3_andWave (a b : Wave) (p x y : Nat) :
    get3 (andWave a b) p x y = ((get3 a p x y) && (get3 b p x y)) := by
  induction a generalizing b p with
  | nil => simp [andWave, get3, get2]
  | cons ha ta ih =>
    cases b with
    | nil => simp [andWave, get3, get2]
    | cons hb tb =>
      cases p with
      | zero => simpa [andWave, get3] using get2_andPlane ha hb x y
      | succ n => simpa [andWave, get3] using ih tb n

lemma countCol_andCol (a b : List Bool) : countCol (andCol a b) ≤ countCol a := by
  induction a generalizing b with
  | nil => simp [andCol, countCol]
  | cons ha ta ih =>
    cases b with
    | nil => simp [andCol, countCol]
    | cons hb tb =>
      simp only [andCol, List.zipWith_cons_cons, countCol, List.count_cons]
      have h1 : ta.count true ≥ (List.zipWith and ta tb).count true := ih tb
      have h2 : (if (ha && hb) == true then 1 else 0) ≤ (if ha == true then 1 else 0) := by
        cases ha <;> cases hb <;> simp
      omega

lemma countPlane_andPlane (a b : Plane) : countPlane (andPlane a b) ≤ countPlane a := by
  induction a generalizing b with
  | nil => simp [andPlane, countPlane]
  | cons ha ta ih =>
    cases b with
    | nil => simp [andPlane, countPlane]
    | cons hb tb =>
      simp only [andPlane, List.zipWith_cons_cons, countPlane, List.map_cons, List.sum_cons]
      exact Nat.add_le_add (countCol_andCol ha hb) (ih tb)

lemma count3_andWave (a b : Wave) : count3 (andWave a b) ≤ count3 a := by
  induction a generalizing b with
  | nil => simp [andWave, count3]
  | cons ha ta ih =>
    cases b with
    | nil => simp [andWave, count3]
    | cons hb tb =>
      simp only [andWave, List.zipWith_cons_cons, count3, List.map_cons, List.sum_cons]
      exact Nat.add_le_add (countPlane_andPlane ha hb) (ih tb)

lemma foldl_andWave_le (l : List Wave) (w : Wave) : count3 (l.foldl andWave w) ≤ count3 w := by
  induction l generalizing w with
  | nil => simp
  | cons h t ih => exact Nat.le_trans (ih (andWave w h)) (count3_andWave w h)

lemma foldl_andWave_get (l : List Wave) (w : Wave) (p x y : Nat)
    (h : get3 (l.foldl andWave w) p x y = true) : get3 w p x y = true := by
  induction l generalizing w with
  | nil => exact h
  | cons hh t ih =>
    have h2 := ih (andWave w hh) h
    rw [get3_andWave] at h2
    exact (Bool.and_eq_true _ _ ▸ h2).1

lemma count3_sweep (w : Wave) (adj : Adj) (per : Bool) :
    count3 (sweep w adj per) ≤ count3 w := by
  unfold sweep
  exact foldl_andWave_le _ w

lemma get3_sweep (w : Wave) (adj : Adj) (per : Bool) (p x y : Nat)
    (h : get3 (sweep w adj per) p x y = true) : get3 w p x y = true := by
  unfold sweep at h
  exact foldl_andWave_get _ w p x y h

lemma propagateLoop_le (fuel : Nat) (w : Wave) (adj : Adj) (per : Bool) (last : Nat) :
    count3 (propagateLoop fuel w adj per last) ≤ count3 w := by
  induction fuel generalizing w last with
  | zero => simp [propagateLoop]
  | succ n ih =>
    simp only [propagateLoop]
    split
    · exact count3_sweep w adj per
    · exact Nat.le_trans (ih (sweep w adj per) _) (count3_sweep w adj per)

lemma propagateLoop_get (fuel : Nat) (w : Wave) (adj : Adj) (per : Bool) (last : Nat)
    (p x y : Nat) (h : get3 (propagateLoop fuel w adj per last) p x y = true) :
    get3 w p x y = true := by
  induction fuel generalizing w last with
  | zero => exact h
  | succ n ih =>
    simp only [propagateLoop] at h
    split at h
    · exact get3_sweep w adj per p x y h
    · exact get3_sweep w adj per p x y (ih (sweep w adj per) _ h)

/-- Claim C7: propagate is monotone — no wave entry changes from false to
true (pointwise the result implies the input), and the total count never
increases across the call. -/
theorem propagate_monotone (w : Wave) (adj : Adj) (per : Bool) :
    count3 (propagate w adj per).1 ≤ count3 w ∧
    ∀ p x y, get3 (propagate w adj per).1 p x y = true → get3 w p x y = true := by
  constructor
  · exact propagateLoop_le _ w adj per _
  · intro p x y h
    exact propagateLoop_get _ w adj per _ p x y h

/-! ## Claim C4: which commits does an attached onChoice hook observe? -/

/-- A two-pattern wave on a 1 x 2 grid with no adjacency constraints: the
driver commits twice (once per cell, in two recursion frames). -/
def w4 : Wave := List.replicate 2 (List.replicate 1 (List.replicate 2 true))

/-- Claim C4, counterexample: with an onChoice hook attached, run performs
the two commits (0,0,0) and (0,0,1) but the hook is invoked only once,
for the top-level frame's choice — the recursive call on line 103 does not
forward onChoice. -/
theorem run_onChoice_misses_deep_commit :
    (run 5 w4 [] lexicalLocationHeuristic lexicalPatternHeuristic false false false
        ChoiceSlot.hook Option.none true).commits = [(0, 0, 0), (0, 0, 1)] ∧
    choiceLog (run 5 w4 [] lexicalLocationHeuristic lexicalPatternHeuristic false false false
        ChoiceSlot.hook Option.none true) = [(0, 0, 0)] ∧
    choiceLog (run 5 w4 [] lexicalLocationHeuristic lexicalPatternHeuristic false false false
        ChoiceSlot.hook Option.none true) ≠
      (run 5 w4 [] lexicalLocationHeuristic lexicalPatternHeuristic false false false
        ChoiceSlot.hook Option.none true).commits := by
  refine ⟨by decide, by decide, by decide⟩

/-- A frame whose onChoice slot holds a misplaced checkFeasible callable
stops with a TypeError at the notification point, producing no events. -/
lemma run_mis_events (fuel : Nat) (w : Wave) (adj : Adj) (locH : Wave → Nat × Nat)
    (patH : List Bool → Option Nat) (per bt obt : Bool) (f : Wave → Bool)
    (cf : Option (Wave → Bool)) (al : Bool) :
    (run fuel w adj locH patH per bt obt (ChoiceSlot.mis f) cf al).events = [] := by
  cases fuel with
  | zero => rfl
  | succ n =>
    simp only [run]
    split
    · rfl
    · split
      · rfl
      · split
        · rfl
        · rfl

lemma evChoice_backtrack_ite (obt : Bool) :
    List.filterMap evChoice (if obt = true then [Event.backtrack] else []) = [] := by
  cases obt <;> rfl

/-- Frames whose onChoice slot is empty never log a choice event, nor do
any of their descendants (line 103 passes no onChoice; line 112 passes the
frame's checkFeasible, which is either absent or a misplaced callable). -/
lemma run_none_choiceLog (adj : Adj) (locH : Wave → Nat × Nat)
    (patH : List Bool → Option Nat) (per bt obt : Bool) :
    ∀ (fuel : Nat) (w : Wave) (cf : Option (Wave → Bool)) (al : Bool),
    choiceLog (run fuel w adj locH patH per bt obt ChoiceSlot.none cf al) = [] := by
  intro fuel
  induction fuel with
  | zero => intro w cf al; rfl
  | succ n ih =>
    intro w cf al
    have ih' : ∀ (w2 : Wave) (cf2 : Option (Wave → Bool)) (al2 : Bool),
        List.filterMap evChoice
          (run n w2 adj locH patH per bt obt ChoiceSlot.none cf2 al2).events = [] := by
      intro w2 cf2 al2
      have h := ih w2 cf2 al2
      simpa only [choiceLog] using h
    simp only [choiceLog, run]
    split
    · rfl
    · split
      · rfl
      · split
        · rfl
        · split
          · -- pr2 raised: the except block
            unfold btStep
            split
            · cases cf with
              | none =>
                simp only [misSlot, List.filterMap_append, List.nil_append,
                  evChoice_backtrack_ite, ih']
              | some f =>
                simp only [misSlot, run_mis_events, List.filterMap_append, List.nil_append,
                  evChoice_backtrack_ite, List.filterMap_nil]
            · rfl
          · split
            · -- recursed into the child frame
              split
              · -- child raised Contradiction: the except block
                unfold btStep
                split
                · cases cf with
                  | none =>
                    simp only [misSlot, List.filterMap_append, List.nil_append,
                      evChoice_backtrack_ite, ih', List.append_nil]
                  | some f =>
                    simp only [misSlot, run_mis_events, List.filterMap_append, List.nil_append,
                      evChoice_backtrack_ite, ih', List.filterMap_nil, List.append_nil]
                · simp only [List.filterMap_append, List.nil_append, ih', List.append_nil]
              · simp only [List.filterMap_append, List.nil_append, ih', List.append_nil]
            · rfl

/-- Claim C4, amended: an onChoice hook supplied to run is invoked only
for the observation made by the frame it was passed to — the recursive
call on line 103 drops it, and the backtracking call on line 112 fills its
slot with checkFeasible — so the hook fires exactly for the first commit
the driver performs and for no later one: the invocation log equals the
first element of the commit log. -/
theorem run_choice_events_take_one (fuel : Nat) (w : Wave) (adj : Adj)
    (locH : Wave → Nat × Nat) (patH : List Bool → Option Nat)
    (per bt obt : Bool) (cf : Option (Wave → Bool)) (al : Bool) :
    choiceLog (run fuel w adj locH patH per bt obt ChoiceSlot.hook cf al) =
      (run fuel w adj locH patH per bt obt ChoiceSlot.hook cf al).commits.take 1 := by
  have hnone : ∀ (w2 : Wave) (cf2 : Option (Wave → Bool)) (al2 : Bool) (n : Nat),
      List.filterMap evChoice
        (run n w2 adj locH patH per bt obt ChoiceSlot.none cf2 al2).events = [] := by
    intro w2 cf2 al2 n
    have h := run_none_choiceLog adj locH patH per bt obt n w2 cf2 al2
    simpa only [choiceLog] using h
  cases fuel with
  | zero => rfl
  | succ n =>
    simp only [choiceLog, run]
    split
    · rfl
    · split
      · rfl
      · split
        · rfl
        · split
          · -- pr2 raised: the except block
            unfold btStep
            split
            · cases cf with
              | none =>
                simp only [misSlot, List.filterMap_append, hnone,
                  evChoice_backtrack_ite, List.append_nil, evChoice, List.filterMap_cons,
                  List.filterMap_nil]
                rfl
              | some f =>
                simp only [misSlot, run_mis_events, List.filterMap_append,
                  evChoice_backtrack_ite, List.append_nil, evChoice, List.filterMap_cons,
                  List.filterMap_nil]
                rfl
            · rfl
          · split
            · -- recursed into the child frame (its onChoice slot is empty)
              split
              · -- child raised Contradiction: the except block
                unfold btStep
                split
                · cases cf with
                  | none =>
                    simp only [misSlot, List.filterMap_append, hnone,
                      evChoice_backtrack_ite, List.append_nil, evChoice, List.filterMap_cons,
                      List.filterMap_nil, List.cons_append, List.nil_append]
                    rfl
                  | some f =>
                    simp only [misSlot, run_mis_events, List.filterMap_append, hnone,
                      evChoice_backtrack_ite, List.append_nil, evChoice, List.filterMap_cons,
                      List.filterMap_nil, List.cons_append, List.nil_append]
                    rfl
                · simp only [List.filterMap_append, hnone, List.append_nil, evChoice,
                    List.filterMap_cons, List.filterMap_nil]
                  rfl
              · simp only [List.filterMap_append, hnone, List.append_nil, evChoice,
                  List.filterMap_cons, List.filterMap_nil]
                rfl
            · rfl

/-! ## Claim C5: is checkFeasible re-examined after a backtrack? -/

/-- Claim C5: the hook `wave.sum() >= 20` passes in the top frame (sum 36),
the first choice forces a backtrack, and the post-backtrack frame — whose
wave propagates down to sum 12 < 20 — never re-evaluates checkFeasible:
line 112 passed it positionally into the onChoice slot, so the frame calls
it with three arguments at the notification point, a TypeError.  Run
neither raises Contradiction (as the claim and the source's own
`test_run` feasibility scenario expect) nor returns a grid. -/
theorem run_checkFeasible_backtrack_typeError :
    (run 16 w0 cbAdj lexicalLocationHeuristic lexicalPatternHeuristic true true false
      ChoiceSlot.none (some (fun w => decide (20 ≤ count3 w))) true).res =
      RunRes.err RunErr.typeErr ∧
    (run 16 w0 cbAdj lexicalLocationHeuristic lexicalPatternHeuristic true true false
      ChoiceSlot.none (some (fun w => decide (20 ≤ count3 w))) true).res ≠
      RunRes.err RunErr.contradiction := by
  refine ⟨by decide, by decide⟩

/-! ## Claim C6: which inputs make makeAdj fail? -/

/-- Claim C6, counterexample: the two direction lists have lengths 2 and 1
(they disagree on the number of patterns), yet makeAdj succeeds — the
extra rows of longer lists are the only length mismatch it can notice, and
a negative neighbor index in [-N, 0) is accepted (numpy wrap-around)
rather than reported. -/
theorem makeAdj_mismatched_lengths_no_error :
    (makeAdj [((0, 1), [[0], [0]]), ((1, 0), [[0]])]).isSome = true ∧
    ([[0], [0]] : List (List Int)).length ≠ ([[0]] : List (List Int)).length ∧
    (makeAdj [((0, 1), [[-1]])]).isSome = true := by
  refine ⟨by decide, by decide, by decide⟩

lemma assignRow_isSome_iff (n i : Nat) (js : List Int) (m : AdjMatrix) :
    (assignRow n i js m).isSome = true ↔
      ∀ j ∈ js, i < n ∧ -(n : Int) ≤ j ∧ j < n := by
  induction js generalizing m with
  | nil => simp [assignRow]
  | cons j rest ih =>
    simp only [assignRow]
    split
    · rename_i hni
      simp only [Option.isSome_none, Bool.false_eq_true, false_iff]
      intro hall
      exact absurd (hall j (List.mem_cons_self j rest)).1 (Nat.not_lt.2 hni)
    · rename_i hni
      split
      · rename_i hout
        simp only [Option.isSome_none, Bool.false_eq_true, false_iff]
        intro hall
        obtain ⟨-, hlo, hhi⟩ := hall j (List.mem_cons_self j rest)
        rcases hout with h | h
        · exact absurd hlo (not_le.2 h)
        · exact absurd hhi (not_lt.2 h)
      · rename_i hout
        push_neg at hout
        rw [ih]
        constructor
        · intro hall j2 hj2
          rcases List.mem_cons.1 hj2 with rfl | hmem
          · exact ⟨Nat.lt_of_not_le hni, hout.1, hout.2⟩
          · exact hall j2 hmem
        · intro hall j2 hj2
          exact hall j2 (List.mem_cons_of_mem j hj2)

lemma buildRows_isSome_iff (n : Nat) (ls : List (List Int)) :
    ∀ (i0 : Nat) (m : AdjMatrix),
    (buildRows n i0 ls m).isSome = true ↔
      ∀ k, k < ls.length → ∀ j ∈ ls.getD k [], i0 + k < n ∧ -(n : Int) ≤ j ∧ j < n := by
  induction ls with
  | nil => intro i0 m; simp [buildRows]
  | cons js rest ih =>
    intro i0 m
    simp only [buildRows]
    cases has : assignRow n i0 js m with
    | none =>
      simp only [Option.none_bind, Option.isSome_none, Bool.false_eq_true, false_iff]
      intro hall
      have h0 := hall 0 (Nat.succ_pos _)
      simp only [List.getD, Nat.add_zero] at h0
      have : (assignRow n i0 js m).isSome = true := by
        rw [assignRow_isSome_iff]
        intro j hj
        simpa using h0 j (by simpa using hj)
      rw [has] at this
      exact absurd this (by simp)
    | some m2 =>
      simp only [Option.some_bind]
      rw [ih (i0 + 1) m2]
      have hjs : ∀ j ∈ js, i0 < n ∧ -(n : Int) ≤ j ∧ j < n := by
        have : (assignRow n i0 js m).isSome = true := by rw [has]; rfl
        rw [assignRow_isSome_iff] at this
        exact this
      constructor
      · intro hall k hk j hj
        cases k with
        | zero =>
          have := hjs j (by simpa using hj)
          simpa [Nat.add_zero] using this
        | succ k2 =>
          have hk2 : k2 < rest.length := Nat.lt_of_succ_lt_succ hk
          have := hall k2 hk2 j (by simpa using hj)
          have heq : i0 + (k2 + 1) = i0 + 1 + k2 := by omega
          rw [heq]
          exact this
      · intro hall k hk j hj
        have := hall (k + 1) (Nat.succ_lt_succ hk) j (by simpa using hj)
        have heq : i0 + (k + 1) = i0 + 1 + k := by omega
        rw [heq] at this
        exact this

lemma buildAdj_isSome_iff (n : Nat) (al : List ((Int × Int) × List (List Int))) :
    (buildAdj n al).isSome = true ↔
      ∀ p ∈ al, (buildRows n 0 p.2 (zeroMat n)).isSome = true := by
  induction al with
  | nil => simp [buildAdj]
  | cons dls rest ih =>
    obtain ⟨d, ls⟩ := dls
    simp only [buildAdj]
    cases hbr : buildRows n 0 ls (zeroMat n) with
    | none =>
      simp only [Option.none_bind, Option.isSome_none, Bool.false_eq_true, false_iff]
      intro hall
      have := hall (d, ls) (List.mem_cons_self _ _)
      rw [hbr] at this
      exact absurd this (by simp)
    | some m =>
      simp only [Option.some_bind]
      rw [show (Option.map (fun r => (d, m) :: r) (buildAdj n rest)).isSome =
          (buildAdj n rest).isSome from by cases buildAdj n rest <;> rfl]
      rw [ih]
      constructor
      · intro hall p hp
        rcases List.mem_cons.1 hp with rfl | hmem
        · rw [hbr]; rfl
        · exact hall p hmem
      · intro hall p hp
        exact hall p (List.mem_cons_of_mem _ hp)

/-- Claim C6, amended: makeAdj fails exactly when the mapping is empty or
when some direction's list has an enumerated entry (i, j) whose row index
i reaches N (a list strictly longer than N with a nonempty overflow row)
or whose neighbor index j lies outside [-N, N), where N is the length of
the first direction's list.  Per-direction lists shorter than N are
accepted silently, as are negative indices in [-N, 0), which wrap to
N + j. -/
theorem makeAdj_fails_iff (al : List ((Int × Int) × List (List Int))) :
    (makeAdj al).isSome = true ↔
      al ≠ [] ∧ ∀ p ∈ al, ∀ k, k < p.2.length → ∀ j ∈ p.2.getD k [],
        k < (al.headD ((0, 0), [])).2.length ∧
        -(((al.headD ((0, 0), [])).2.length : Nat) : Int) ≤ j ∧
        j < (((al.headD ((0, 0), [])).2.length : Nat) : Int) := by
  cases al with
  | nil => simp [makeAdj]
  | cons first rest =>
    simp only [makeAdj, List.headD_cons, ne_eq, reduceCtorEq, not_false_eq_true, true_and]
    rw [buildAdj_isSome_iff]
    constructor
    · intro hall p hp k hk j hj
      have := hall p hp
      rw [buildRows_isSome_iff] at this
      have h2 := this k hk j hj
      simpa using h2
    · intro hall p hp
      rw [buildRows_isSome_iff]
      intro k hk j hj
      have := hall p hp k hk j hj
      simpa using this

/-! ## Claims C8 and C10: makeWave with a ground row -/

lemma count_replicate_false_set_true (n g : Nat) (hg : g < n) :
    ((List.replicate n false).set g true).count true = 1 := by
  induction n generalizing g with
  | zero => omega
  | succ m ih =>
    cases g with
    | zero =>
      simp [List.replicate_succ, List.count_cons, List.count_replicate]
    | succ g2 =>
      have := ih g2 (Nat.lt_of_succ_lt_succ hg)
      simp only [List.replicate_succ, List.set_cons_succ, List.count_cons, this]
      simp

lemma count_replicate_true_set_false (h i : Nat) (hi : i < h) :
    ((List.replicate h true).set i false).count true = h - 1 := by
  induction h generalizing i with
  | zero => omega
  | succ m ih =>
    cases i with
    | zero =>
      simp [List.replicate_succ, List.count_cons, List.count_replicate]
    | succ i2 =>
      have hi2 : i2 < m := Nat.lt_of_succ_lt_succ hi
      have := ih i2 hi2
      simp only [List.replicate_succ, List.set_cons_succ, List.count_cons, this]
      simp
      omega

lemma sum_replicate_set (n g a b : Nat) (hg : g < n) :
    ((List.replicate n a).set g b).sum = (n - 1) * a + b := by
  induction n generalizing g with
  | zero => omega
  | succ m ih =>
    cases g with
    | zero =>
      simp [List.replicate_succ, List.sum_cons, List.sum_replicate, Nat.succ_sub_one]
      ring
    | succ g2 =>
      have hg2 : g2 < m := Nat.lt_of_succ_lt_succ hg
      have := ih g2 hg2
      simp only [List.replicate_succ, List.set_cons_succ, List.sum_cons, this,
        Nat.succ_sub_one]
      have hm : 0 < m := Nat.lt_of_le_of_lt (Nat.zero_le _) hg2
      cases m with
      | zero => omega
      | succ m2 => simp [Nat.succ_sub_one]; ring

lemma get2_replicate (w : Nat) (col : List Bool) (x y : Nat) (hx : x < w) :
    get2 (List.replicate w col) x y = col.getD y false := by
  unfold get2
  rw [List.getD_eq_getElem _ [] (by simpa using hx), List.getElem_replicate]

/-- The wave makeWave builds for an accepted ground index gi. -/
lemma makeWave_eval (n w h : Nat) (g : Nat) (hh : 0 < h) (hg : g < n) :
    makeWave n w h (some (g : Int)) =
      some ((List.replicate n
          (List.replicate w ((List.replicate h true).set (h - 1) false))).set g
        (List.replicate w (List.replicate h true))) := by
  simp only [makeWave]
  rw [if_neg (by omega : ¬ h = 0)]
  rw [if_neg (by omega : ¬((g : Int) < -(n : Int) ∨ (n : Int) ≤ (g : Int)))]
  rw [if_neg (by omega : ¬((g : Int) < 0))]
  have hacc : ((g : Int)).toNat = g := Int.toNat_natCast g
  rw [hacc]
  simp only [List.map_replicate]
  congr 1
  have hgd : (List.replicate n
      (List.replicate w ((List.replicate h true).set (h - 1) false))).getD g [] =
      List.replicate w ((List.replicate h true).set (h - 1) false) := by
    rw [List.getD_eq_getElem _ [] (by simpa using hg), List.getElem_replicate]
  rw [hgd, List.map_replicate, List.set_set, List.set_replicate_self]

/-- Claim C8: for positive N, W, H and a ground index g below N,
makeWave(N, W, H, ground = g) pins every bottom-row cell (y = H-1) to
exactly the one pattern g and keeps all N patterns everywhere else, for a
total of N·W·(H-1) + W true entries. -/
theorem makeWave_ground_counts (n w h g : Nat) (hn : 0 < n) (_hw : 0 < w) (hh : 0 < h)
    (hg : g < n) :
    ∃ W, makeWave n w h (some (g : Int)) = some W ∧
      (∀ x, x < w → (cellCol W x (h - 1)).count true = 1 ∧ get3 W g x (h - 1) = true) ∧
      (∀ x y, x < w → y < h - 1 → (cellCol W x y).count true = n) ∧
      count3 W = n * w * (h - 1) + w := by
  refine ⟨_, makeWave_eval n w h g hh hg, ?_, ?_, ?_⟩
  · intro x hx
    constructor
    · unfold cellCol
      rw [List.map_set, List.map_replicate]
      rw [get2_replicate w _ x (h - 1) hx, get2_replicate w _ x (h - 1) hx]
      rw [List.getD_eq_getElem _ false (by simp; omega), List.getElem_set_self]
      rw [List.getD_eq_getElem _ false (by simp; omega), List.getElem_replicate]
      exact count_replicate_false_set_true n g hg
    · unfold get3
      rw [List.getD_eq_getElem _ [] (by simpa using hg), List.getElem_set_self]
      rw [get2_replicate w _ x (h - 1) hx]
      rw [List.getD_eq_getElem _ false (by simpa using Nat.sub_lt hh Nat.one_pos),
        List.getElem_replicate]
  · intro x y hx hy
    unfold cellCol
    rw [List.map_set, List.map_replicate]
    rw [get2_replicate w _ x y hx, get2_replicate w _ x y hx]
    have hyh : y < h := by omega
    rw [List.getD_eq_getElem _ false (by simpa using hyh), List.getElem_set,
      if_neg (by omega : ¬ h - 1 = y), List.getElem_replicate]
    rw [List.getD_eq_getElem _ false (by simpa using hyh), List.getElem_replicate]
    rw [List.set_replicate_self, List.count_replicate]
    simp
  · unfold count3
    rw [List.map_set, List.map_replicate]
    have hplF : countPlane (List.replicate w ((List.replicate h true).set (h - 1) false)) =
        w * (h - 1) := by
      unfold countPlane
      rw [List.map_replicate, List.sum_replicate, smul_eq_mul]
      unfold countCol
      rw [count_replicate_true_set_false h (h - 1) (Nat.sub_lt hh Nat.one_pos)]
    have hplT : countPlane (List.replicate w (List.replicate h true)) = w * h := by
      unfold countPlane
      rw [List.map_replicate, List.sum_replicate, smul_eq_mul]
      unfold countCol
      rw [List.count_replicate]
      simp
    rw [hplF, hplT, sum_replicate_set n g _ _ hg]
    cases n with
    | zero => omega
    | succ m =>
      cases h with
      | zero => omega
      | succ k =>
        simp only [Nat.succ_sub_one]
        ring

/-- Claim C8, witness: the concrete instance N = 3, W = 10, H = 20,
ground = 2 from the specification's scenario list. -/
theorem makeWave_ground_counts_witness :
    0 < 3 ∧ 0 < 10 ∧ 0 < 20 ∧ 2 < 3 ∧
    (∃ W, makeWave 3 10 20 (some ((2 : Nat) : Int)) = some W ∧
      (∀ x, x < 10 → (cellCol W x 19).count true = 1 ∧ get3 W 2 x 19 = true) ∧
      (∀ x y, x < 10 → y < 19 → (cellCol W x y).count true = 3) ∧
      count3 W = 3 * 10 * 19 + 10) := by
  refine ⟨by decide, by decide, by decide, by decide, ?_⟩
  exact makeWave_ground_counts 3 10 20 2 (by decide) (by decide) (by decide) (by decide)

/-- Claim C10: makeWave accepts a negative ground index g in [-N, 0)
without error (numpy wrap-around indexing): the result exists and is
exactly the wave produced for the non-negative ground index N + g, i.e.
the bottom row is pinned to pattern N + g rather than g being rejected. -/
theorem makeWave_negative_ground (n w h : Nat) (g : Int) (hh : 0 < h)
    (hg1 : -(n : Int) ≤ g) (hg2 : g < 0) :
    (makeWave n w h (some g)).isSome = true ∧
    makeWave n w h (some g) = makeWave n w h (some (g + n)) := by
  have hmain : makeWave n w h (some g) = makeWave n w h (some (g + n)) := by
    simp only [makeWave]
    rw [if_neg (by omega : ¬ h = 0), if_neg (by omega : ¬ h = 0)]
    rw [if_neg (by omega : ¬(g < -(n : Int) ∨ (n : Int) ≤ g))]
    rw [if_neg (by omega : ¬(g + n < -(n : Int) ∨ (n : Int) ≤ g + n))]
    rw [if_pos hg2, if_neg (by omega : ¬(g + (n : Int) < 0))]
  refine ⟨?_, hmain⟩
  rw [hmain]
  simp only [makeWave]
  rw [if_neg (by omega : ¬ h = 0)]
  rw [if_neg (by omega : ¬(g + n < -(n : Int) ∨ (n : Int) ≤ g + n))]
  rfl

/-- Claim C10, witness: ground = -1 with N = 3 (the source's own
test_makeWave input) wraps to pattern 2: pattern 2 is pinned on the bottom
row, pattern 1 is not, and the total count is 3·10·19 + 10 = 580. -/
theorem makeWave_negative_ground_witness :
    (0 : Nat) < 20 ∧ -((3 : Nat) : Int) ≤ -1 ∧ (-1 : Int) < 0 ∧
    ((makeWave 3 10 20 (some (-1))).isSome = true ∧
      makeWave 3 10 20 (some (-1)) = makeWave 3 10 20 (some (-1 + (3 : Nat)))) ∧
    count3 ((makeWave 3 10 20 (some (-1))).getD []) = 580 ∧
    get3 ((makeWave 3 10 20 (some (-1))).getD []) 2 5 19 = true ∧
    get3 ((makeWave 3 10 20 (some (-1))).getD []) 1 5 19 = false := by
  refine ⟨by decide, by decide, by decide,
    makeWave_negative_ground 3 10 20 (-1) (by decide) (by decide) (by decide),
    by decide, by decide, by decide⟩

/-! ## Claim C9: the caller's array after a backtrack -/

/-- Claim C9: when backtracking is enabled and the post-commit propagation
raises Contradiction in the top frame, run rebinds its local name to the
per-frame snapshot copy: the caller's array is frozen at the failed,
propagated state (it is never restored to the pre-choice snapshot), and
the returned result is whatever the recursion computes on the forbidden
snapshot copy — an array the caller never sees. -/
theorem run_backtrack_caller_not_restored (fuel : Nat) (w : Wave) (adj : Adj)
    (locH : Wave → Nat × Nat) (patH : List Bool → Option Nat) (per obt hook : Bool)
    (p i j : Nat)
    (h1 : (propagate w adj per).2 = false)
    (h2 : observe (propagate w adj per).1 locH patH = some (p, i, j))
    (h3 : (propagate (clearExcept (propagate w adj per).1 p i j) adj per).2 = true) :
    (run (fuel + 1) w adj locH patH per true obt
        (if hook then ChoiceSlot.hook else ChoiceSlot.none) Option.none true).caller =
      some (propagate (clearExcept (propagate w adj per).1 p i j) adj per).1 ∧
    (run (fuel + 1) w adj locH patH per true obt
        (if hook then ChoiceSlot.hook else ChoiceSlot.none) Option.none true).res =
      (run fuel (clearAt w p i j) adj locH patH per true obt
        ChoiceSlot.none Option.none false).res := by
  cases hook <;>
    simp [run, h1, h2, h3, btStep, misSlot, mkCaller]

/-- Claim C9, witness: the periodic backtracking scenario.  The top frame
chooses (0,0,0), the commit propagates to the all-false wave and raises;
afterwards the caller's array holds that all-false wave — not the all-true
pre-choice state — while the returned all-2 grid comes from the snapshot
copy and cannot be read off the caller's array. -/
theorem run_backtrack_caller_not_restored_witness :
    ((propagate w0 cbAdj true).2 = false ∧
      observe (propagate w0 cbAdj true).1 lexicalLocationHeuristic lexicalPatternHeuristic =
        some (0, 0, 0) ∧
      (propagate (clearExcept (propagate w0 cbAdj true).1 0 0 0) cbAdj true).2 = true) ∧
    ((run 16 w0 cbAdj lexicalLocationHeuristic lexicalPatternHeuristic true true true
        ChoiceSlot.hook Option.none true).caller =
      some (propagate (clearExcept (propagate w0 cbAdj true).1 0 0 0) cbAdj true).1 ∧
     (run 16 w0 cbAdj lexicalLocationHeuristic lexicalPatternHeuristic true true true
        ChoiceSlot.hook Option.none true).res =
      (run 15 (clearAt w0 0 0 0) cbAdj lexicalLocationHeuristic lexicalPatternHeuristic
        true true true ChoiceSlot.none Option.none false).res) ∧
    (propagate (clearExcept (propagate w0 cbAdj true).1 0 0 0) cbAdj true).1 ≠ w0 ∧
    (run 16 w0 cbAdj lexicalLocationHeuristic lexicalPatternHeuristic true true true
        ChoiceSlot.hook Option.none true).res =
      RunRes.ok [[2, 2, 2, 2], [2, 2, 2, 2], [2, 2, 2, 2]] ∧
    argmax0 (((run 16 w0 cbAdj lexicalLocationHeuristic lexicalPatternHeuristic true true true
        ChoiceSlot.hook Option.none true).caller).getD []) ≠
      [[2, 2, 2, 2], [2, 2, 2, 2], [2, 2, 2, 2]] := by
  refine ⟨⟨by decide, by decide, by decide⟩,
    run_backtrack_caller_not_restored 15 w0 cbAdj lexicalLocationHeuristic
      lexicalPatternHeuristic true true true 0 0 0 (by decide) (by decide) (by decide),
    by decide, by decide, by decide⟩

end WFC
